import Mathlib

/-!
Shallow embedding of the `weather-data` repository core: the `WeatherData`
record type, the `WeatherArchive` ordered map (`addData`, `retrieve`,
`retrieveRange`), the date codec `jsonparse::dateToUnix` (regex scan plus
the civil-calendar conversion of the bundled date library), and the driver
algorithms `calcVariableMean` and `sampleHistoricalData`.

Numeric measurement fields (C++ `double`) are modelled as rationals;
timestamps (C++ `int64` epoch seconds) as `Int`.  The C++ `std::map` is
modelled as an association list with strictly increasing keys, which is the
representation invariant `std::map` maintains; `retrieveRange` mirrors the
iterator loop of the source (`find(begin)`, `find(end)`, push until the end
iterator is reached or the container is exhausted).
-/

/-- One day's observations: optional timestamp and four optional
measurements, mirroring `struct WeatherData` (weather_data.h). -/
structure WeatherData where
  time : Option Int
  maxTemp : Option ℚ
  minTemp : Option ℚ
  meanTemp : Option ℚ
  gas_ppt : Option ℚ
deriving DecidableEq, Repr

/-- The archive's backing store: `std::map<data_time, WeatherData>`
modelled as an association list ordered by strictly increasing key. -/
abbrev WeatherArchive := List (Int × WeatherData)

namespace WeatherArchive

/-- The keys of the backing map. -/
def keys (a : WeatherArchive) : List Int := a.map Prod.fst

/-- Ordered-map insertion with replacement, the effect of
`mWeatherMap[key] = data` on `std::map`. -/
def insertKey (t : Int) (r : WeatherData) : WeatherArchive → WeatherArchive
  | [] => [(t, r)]
  | (k, v) :: rest =>
      if t < k then (t, r) :: (k, v) :: rest
      else if t = k then (t, r) :: rest
      else (k, v) :: insertKey t r rest

/-- `WeatherArchive::addData`: drop the record when it has no timestamp,
otherwise upsert it under its timestamp (weather_archive.cpp lines 10-14). -/
def addData (a : WeatherArchive) (data : WeatherData) : WeatherArchive :=
  match data.time with
  | none => a
  | some t => insertKey t data a

/-- Key lookup, the effect of `mWeatherMap.find` followed by the
end-iterator test (weather_archive.cpp lines 16-24). -/
def retrieve (a : WeatherArchive) (t : Int) : Option WeatherData :=
  match a with
  | [] => none
  | (k, v) :: rest => if k = t then some v else retrieve rest t

/-- The collection loop of `retrieveRange`: starting at the entry for
`begin_sec`, push each entry and stop after the entry whose key is
`end_sec`; when no entry has that key (`end_it == map.end()`), the loop
only stops at the end of the container. -/
def takeToKey (e : Int) : WeatherArchive → WeatherArchive
  | [] => []
  | p :: rest => p :: (if p.1 = e then [] else takeToKey e rest)

/-- `WeatherArchive::retrieveRange` (weather_archive.cpp lines 26-52):
empty unless `begin_sec <= end_sec` and an entry exists at exactly
`begin_sec`; otherwise iterate from that entry, collecting entries until
the entry at `end_sec` (inclusive) or, when `end_sec` is not a key, until
the end of the map. -/
def retrieveRange (a : WeatherArchive) (begin_sec end_sec : Int) :
    List WeatherData :=
  if begin_sec ≤ end_sec then
    match retrieve a begin_sec with
    | some _ =>
        (takeToKey end_sec (a.dropWhile (fun p => p.1 < begin_sec))).map
          Prod.snd
    | none => []
  else []

/-- Archive well-formedness: the `std::map` representation invariant
(strictly increasing keys) together with the documented archive invariant
that every key equals the timestamp of its record. -/
def WF (a : WeatherArchive) : Prop :=
  a.Pairwise (fun p q => p.1 < q.1) ∧ ∀ p ∈ a, p.2.time = some p.1

instance (a : WeatherArchive) : Decidable a.WF := by
  unfold WF; infer_instance

end WeatherArchive

/-- The timestamps of a query result, in result order. -/
def timesOf (l : List WeatherData) : List Int :=
  l.filterMap (fun r => r.time)

/-- The archive's public operations: insertion plus the two `const`
queries, which leave the store untouched. -/
inductive ArchiveOp where
  | add (r : WeatherData)
  | query (t : Int)
  | queryRange (b e : Int)

/-- Effect of one operation on the backing map: only `addData` mutates;
`retrieve` and `retrieveRange` are `const` member functions. -/
def applyOp (a : WeatherArchive) : ArchiveOp → WeatherArchive
  | .add r => a.addData r
  | .query _ => a
  | .queryRange _ _ => a

/-- Archive state after a sequence of operations starting from the
default-constructed (empty) archive. -/
def runOps (ops : List ArchiveOp) : WeatherArchive :=
  ops.foldl applyOp []

namespace jsonparse

/-- Numeric value of a two-digit capture, as `std::stoi` reads it. -/
def num2 (a b : Char) : Int :=
  ((10 * (a.toNat - 48) + (b.toNat - 48) : Nat) : Int)

/-- Numeric value of a four-digit capture, as `std::stoi` reads it. -/
def num4 (a b c d : Char) : Int :=
  ((1000 * (a.toNat - 48) + 100 * (b.toNat - 48) + 10 * (c.toNat - 48)
      + (d.toNat - 48) : Nat) : Int)

/-- One position's attempt of the fixed-width pattern of
`jsonparse::dateRegex` (`([12]\d{3}-(0[1-9]|1[0-2])-(0[1-9]|[12]\d|3[01])`,
json_parse.h lines 23-26): when the first ten characters match, return the
three captured numbers. -/
def tryWindow : List Char → Option (Int × Int × Int)
  | y0 :: y1 :: y2 :: y3 :: h1 :: m0 :: m1 :: h2 :: d0 :: d1 :: _ =>
      if (y0 = '1' ∨ y0 = '2') ∧ y1.isDigit ∧ y2.isDigit ∧ y3.isDigit
          ∧ h1 = '-'
          ∧ ((m0 = '0' ∧ '1' ≤ m1 ∧ m1 ≤ '9') ∨ (m0 = '1' ∧ '0' ≤ m1 ∧ m1 ≤ '2'))
          ∧ h2 = '-'
          ∧ ((d0 = '0' ∧ '1' ≤ d1 ∧ d1 ≤ '9')
              ∨ ((d0 = '1' ∨ d0 = '2') ∧ d1.isDigit)
              ∨ (d0 = '3' ∧ (d1 = '0' ∨ d1 = '1'))) then
        some (num4 y0 y1 y2 y3, num2 m0 m1, num2 d0 d1)
      else
        none
  | _ => none

/-- `std::regex_search` with `jsonparse::dateRegex`: find the leftmost
window matching the pattern anywhere in the input and return its captures.
All alternatives of the pattern have the same length, so the leftmost
match is the first position at which the fixed-width pattern holds. -/
def scanDate : List Char → Option (Int × Int × Int)
  | [] => none
  | c :: rest =>
      match tryWindow (c :: rest) with
      | some t => some t
      | none => scanDate rest

/-- `date::year_month_day::to_days` of the bundled date library: the
days-from-civil computation, which per the library's documented conversion
rule is linear in the day field even when `y/m/d` is not a real calendar
date (for valid year and month, `sys_days{y/m/d} = sys_days{y/m/1} +
(d - 1)` days).  `Int.tdiv` is C++ truncating division. -/
def toDays (y m d : Int) : Int :=
  let yAdj := y - (if m ≤ 2 then 1 else 0)
  let era := Int.tdiv (if 0 ≤ yAdj then yAdj else yAdj - 399) 400
  let yoe := yAdj - era * 400
  let doy := Int.tdiv (153 * (m + (if 2 < m then -3 else 9)) + 2) 5 + d - 1
  let doe := yoe * 365 + Int.tdiv yoe 4 - Int.tdiv yoe 100 + doy
  era * 146097 + doe - 719468

/-- Inverse civil-calendar conversion of the date library
(`date::year_month_day{date::sys_days{...}}`): day count since the epoch
to `(year, month, day)`. -/
def fromDays (z : Int) : Int × Int × Int :=
  let z2 := z + 719468
  let era := Int.tdiv (if 0 ≤ z2 then z2 else z2 - 146096) 146097
  let doe := z2 - era * 146097
  let yoe := Int.tdiv (doe - Int.tdiv doe 1460 + Int.tdiv doe 36524
      - Int.tdiv doe 146096) 365
  let y := yoe + era * 400
  let doy := doe - (365 * yoe + Int.tdiv yoe 4 - Int.tdiv yoe 100)
  let mp := Int.tdiv (5 * doy + 2) 153
  let d := doy - Int.tdiv (153 * mp + 2) 5 + 1
  let m := mp + (if mp < 10 then 3 else -9)
  (y + (if m ≤ 2 then 1 else 0), m, d)

/-- `jsonparse::dateToUnix` (json_parse.cpp lines 38-52): regex-search the
input for a date pattern, and when found convert the captured year, month
and day through the date library to epoch seconds (86400 seconds per
day). -/
def dateToUnix (s : String) : Option Int :=
  (scanDate s.toList).map (fun t => 86400 * toDays t.1 t.2.1 t.2.2)

end jsonparse

namespace ParseWeatherDriver

/-- The four recognized variable names of `VariableStrings`
(parse_weather_driver.h): `tmax`, `tmin`, `tmean`, `ppt`. -/
inductive Variable where
  | tmax | tmin | tmean | ppt
deriving DecidableEq, Repr

/-- The record field selected by each variable name, as chosen by the
four branches of `calcVariableMean` (parse_weather_driver.cpp lines
283-328). -/
def fieldOf : Variable → WeatherData → Option ℚ
  | .tmax, r => r.maxTemp
  | .tmin, r => r.minTemp
  | .tmean, r => r.meanTemp
  | .ppt, r => r.gas_ppt

/-- The accumulation loop of `calcVariableMean`: running count and sum
over the records of the range in which the selected field is present
(records missing the field are only logged). -/
def accumulate (f : WeatherData → Option ℚ) : List WeatherData → Nat × ℚ →
    Nat × ℚ
  | [], acc => acc
  | r :: rest, acc =>
      match f r with
      | some x => accumulate f rest (acc.1 + 1, acc.2 + x)
      | none => accumulate f rest acc

/-- `ParseWeatherDriver::calcVariableMean` (parse_weather_driver.cpp lines
272-335) applied to an already-parsed date range: fetch the range, sum the
present values of the selected variable, and return `sum / count` when
`count > 0`; the C++ `NaN` result for `count == 0` is modelled as
`none`. -/
def calcVariableMean (a : WeatherArchive) (v : Variable)
    (begin_sec end_sec : Int) : Option ℚ :=
  let rangeData := a.retrieveRange begin_sec end_sec
  let acc := accumulate (fieldOf v) rangeData (0, 0)
  if 0 < acc.1 then some (acc.2 / acc.1) else none

/-- The inner lambda of `sampleHistoricalData` (parse_weather_driver.cpp
lines 426-441): walk the shuffled candidate years in order, query the
archive at the epoch timestamp built from the candidate year and the
month/day under consideration, and return the first hit. -/
def firstHit (a : WeatherArchive) (m d : Int) : List Int →
    Option WeatherData
  | [] => none
  | y :: rest =>
      match a.retrieve (86400 * jsonparse.toDays y m d) with
      | some r => some r
      | none => firstHit a m d rest

/-- The day loop of `sampleHistoricalData` (parse_weather_driver.cpp lines
416-451), with `n` remaining iterations and `idx` the zero-based index of
the current day after `startDay`: split the day into calendar components,
look for data in the shuffled candidate years, and on a hit re-stamp the
record's time to the current day before appending it. -/
def sampleDays (a : WeatherArchive) (shuffle : Nat → List Int)
    (startDay : Int) : Nat → Nat → List WeatherData
  | 0, _ => []
  | n + 1, idx =>
      let day := startDay + idx
      let ymd := jsonparse.fromDays day
      match firstHit a ymd.2.1 ymd.2.2 (shuffle idx) with
      | some r =>
          { r with time := some (86400 * day) } ::
            sampleDays a shuffle startDay n (idx + 1)
      | none => sampleDays a shuffle startDay n (idx + 1)

/-- `ParseWeatherDriver::sampleHistoricalData` (parse_weather_driver.cpp
lines 377-454) applied to already-parsed day bounds: one iteration per day
from `startDay` to `finishDay` inclusive.  The in-place `std::shuffle` of
the candidate-year vector is modelled by the oracle `shuffle`, giving the
order in which each day's loop walks the candidate years; theorems
constrain it to be a permutation of the candidate-year list where the
claim needs that. -/
def sampleHistoricalData (a : WeatherArchive) (shuffle : Nat → List Int)
    (startDay finishDay : Int) : List WeatherData :=
  sampleDays a shuffle startDay (finishDay - startDay + 1).toNat 0

/-- The candidate-year vector built by `std::iota` from the parsed year
range (parse_weather_driver.cpp lines 412-413). -/
def sampleYears (yearLow yearHigh : Int) : List Int :=
  (List.range (yearHigh - yearLow + 1).toNat).map (fun i => yearLow + i)

end ParseWeatherDriver

namespace WeatherArchive

theorem takeToKey_sublist (e : Int) (l : WeatherArchive) :
    List.Sublist (takeToKey e l) l := by
  induction l with
  | nil => simp [takeToKey]
  | cons p rest ih =>
      rw [takeToKey]
      by_cases h : p.1 = e
      · rw [if_pos h]
        exact (List.nil_sublist rest).cons₂ p
      · rw [if_neg h]
        exact ih.cons₂ p

theorem takeToKey_le {l : WeatherArchive} {e : Int}
    (hp : l.Pairwise (fun p q => p.1 < q.1)) (he : e ∈ l.keys) :
    ∀ p ∈ takeToKey e l, p.1 ≤ e := by
  induction l with
  | nil => simp [takeToKey]
  | cons q rest ih =>
      intro p hmem
      rw [takeToKey] at hmem
      rcases List.pairwise_cons.mp hp with ⟨hhead, htail⟩
      by_cases hk : q.1 = e
      · rw [if_pos hk] at hmem
        have : p = q := by simpa using hmem
        exact this ▸ le_of_eq hk
      · rw [if_neg hk] at hmem
        have he' : e ∈ rest.map Prod.fst := by
          rcases List.mem_map.mp he with ⟨q', hq', hq'e⟩
          rcases List.mem_cons.mp hq' with h1 | h1
          · exact absurd (h1 ▸ hq'e) hk
          · exact List.mem_map.mpr ⟨q', h1, hq'e⟩
        rcases List.mem_cons.mp hmem with h1 | h1
        · rcases List.mem_map.mp he' with ⟨q', hq', hq'e⟩
          exact h1 ▸ le_of_lt (hq'e ▸ hhead q' hq')
        · exact ih htail he' p h1

theorem mem_dropWhile_ge {l : WeatherArchive} {b : Int}
    (hp : l.Pairwise (fun p q => p.1 < q.1)) :
    ∀ p ∈ l.dropWhile (fun q => q.1 < b), b ≤ p.1 := by
  induction l with
  | nil => simp
  | cons q rest ih =>
      intro p hmem
      rw [List.dropWhile_cons] at hmem
      rcases List.pairwise_cons.mp hp with ⟨hhead, htail⟩
      by_cases hq : q.1 < b
      · rw [if_pos (by simpa using hq)] at hmem
        exact ih htail p hmem
      · rw [if_neg (by simpa using hq)] at hmem
        rcases List.mem_cons.mp hmem with h1 | h1
        · exact h1 ▸ le_of_not_lt hq
        · exact le_of_lt (lt_of_le_of_lt (le_of_not_lt hq) (hhead p h1))

theorem mem_dropWhile_of_mem {l : WeatherArchive} {b : Int}
    {p : Int × WeatherData} (hm : p ∈ l) (hge : ¬ p.1 < b) :
    p ∈ l.dropWhile (fun q => q.1 < b) := by
  induction l with
  | nil => simp at hm
  | cons q rest ih =>
      rw [List.dropWhile_cons]
      by_cases hq : q.1 < b
      · rw [if_pos (by simpa using hq)]
        rcases List.mem_cons.mp hm with h1 | h1
        · exact absurd (h1 ▸ hq) hge
        · exact ih h1
      · rw [if_neg (by simpa using hq)]
        exact hm

theorem retrieve_eq_some_mem {a : WeatherArchive} {t : Int} {r : WeatherData}
    (h : retrieve a t = some r) : (t, r) ∈ a := by
  induction a with
  | nil => simp [retrieve] at h
  | cons q rest ih =>
      rw [retrieve] at h
      by_cases hk : q.1 = t
      · rw [if_pos hk] at h
        injection h with h
        subst h
        subst hk
        exact List.mem_cons_self _ _
      · rw [if_neg hk] at h
        exact List.mem_cons_of_mem _ (ih h)

theorem retrieve_eq_none_iff {a : WeatherArchive} {t : Int} :
    retrieve a t = none ↔ t ∉ a.keys := by
  induction a with
  | nil => simp [retrieve, keys]
  | cons q rest ih =>
      rw [retrieve]
      by_cases hk : q.1 = t
      · simp [keys, hk]
      · simp only [if_neg hk, ih, keys, List.map_cons, List.mem_cons]
        constructor
        · intro h hmem
          rcases hmem with h1 | h1
          · exact hk h1.symm
          · exact h h1
        · intro h h1
          exact h (Or.inr h1)

theorem dropWhile_eq_cons_of_retrieve {a : WeatherArchive} {b : Int}
    {r : WeatherData} (hp : a.Pairwise (fun p q => p.1 < q.1))
    (h : retrieve a b = some r) :
    ∃ tl, a.dropWhile (fun p => p.1 < b) = (b, r) :: tl := by
  induction a with
  | nil => simp [retrieve] at h
  | cons q rest ih =>
      rcases List.pairwise_cons.mp hp with ⟨hhead, htail⟩
      rw [retrieve] at h
      by_cases hk : q.1 = b
      · rw [if_pos hk] at h
        injection h with h
        refine ⟨rest, ?_⟩
        rw [List.dropWhile_cons, if_neg (by simp [hk])]
        obtain ⟨k, v⟩ := q
        simp only at hk h
        rw [hk, h]
      · rw [if_neg hk] at h
        have hmem : (b, r) ∈ rest := retrieve_eq_some_mem h
        have hkb : q.1 < b := hhead (b, r) hmem
        rcases ih htail h with ⟨tl, htl⟩
        refine ⟨tl, ?_⟩
        rw [List.dropWhile_cons, if_pos (by simpa using hkb), htl]

theorem mem_insertKey {t : Int} {r : WeatherData} {l : WeatherArchive}
    {p : Int × WeatherData} (h : p ∈ insertKey t r l) :
    p = (t, r) ∨ p ∈ l := by
  induction l with
  | nil => simpa [insertKey] using h
  | cons q rest ih =>
      rw [insertKey] at h
      by_cases h1 : t < q.1
      · rw [if_pos h1] at h
        rcases List.mem_cons.mp h with h2 | h2
        · exact Or.inl h2
        · exact Or.inr h2
      · rw [if_neg h1] at h
        by_cases h2 : t = q.1
        · rw [if_pos h2] at h
          rcases List.mem_cons.mp h with h3 | h3
          · exact Or.inl h3
          · exact Or.inr (List.mem_cons_of_mem _ h3)
        · rw [if_neg h2] at h
          rcases List.mem_cons.mp h with h3 | h3
          · exact Or.inr (h3 ▸ List.mem_cons_self _ _)
          · rcases ih h3 with h4 | h4
            · exact Or.inl h4
            · exact Or.inr (List.mem_cons_of_mem _ h4)

theorem insertKey_pairwise {t : Int} {r : WeatherData} {l : WeatherArchive}
    (hp : l.Pairwise (fun p q => p.1 < q.1)) :
    (insertKey t r l).Pairwise (fun p q => p.1 < q.1) := by
  induction l with
  | nil => simp [insertKey]
  | cons q rest ih =>
      rcases List.pairwise_cons.mp hp with ⟨hhead, htail⟩
      rw [insertKey]
      by_cases h1 : t < q.1
      · rw [if_pos h1]
        refine List.pairwise_cons.mpr ⟨?_, hp⟩
        intro p hpmem
        rcases List.mem_cons.mp hpmem with h2 | h2
        · exact h2 ▸ h1
        · exact lt_trans h1 (hhead p h2)
      · rw [if_neg h1]
        by_cases h2 : t = q.1
        · rw [if_pos h2]
          refine List.pairwise_cons.mpr ⟨?_, htail⟩
          intro p hpmem
          exact h2 ▸ hhead p hpmem
        · rw [if_neg h2]
          refine List.pairwise_cons.mpr ⟨?_, ih htail⟩
          intro p hpmem
          rcases mem_insertKey hpmem with h3 | h3
          · have : q.1 < t := lt_of_le_of_ne (le_of_not_lt h1) (fun h => h2 h.symm)
            exact h3 ▸ this
          · exact hhead p h3

theorem retrieve_insertKey_self (t : Int) (r : WeatherData)
    (l : WeatherArchive) : retrieve (insertKey t r l) t = some r := by
  induction l with
  | nil => simp [insertKey, retrieve]
  | cons q rest ih =>
      rw [insertKey]
      by_cases h1 : t < q.1
      · rw [if_pos h1, retrieve, if_pos rfl]
      · rw [if_neg h1]
        by_cases h2 : t = q.1
        · rw [if_pos h2, retrieve, if_pos rfl]
        · rw [if_neg h2, retrieve, if_neg (fun h => h2 h.symm)]
          exact ih

theorem addData_WF {a : WeatherArchive} {r : WeatherData} (h : a.WF) :
    (a.addData r).WF := by
  unfold addData
  cases hr : r.time with
  | none => exact h
  | some t =>
      refine ⟨insertKey_pairwise h.1, ?_⟩
      intro p hp
      rcases mem_insertKey hp with h1 | h1
      · rw [h1]
        exact hr
      · exact h.2 p h1

theorem runOps_WF (ops : List ArchiveOp) : (runOps ops).WF := by
  suffices h : ∀ (a : WeatherArchive), a.WF → (ops.foldl applyOp a).WF by
    exact h [] (by simp [WF])
  induction ops with
  | nil => intro a ha; simpa using ha
  | cons op rest ih =>
      intro a ha
      rw [List.foldl_cons]
      refine ih _ ?_
      cases op with
      | add r => exact addData_WF ha
      | query t => exact ha
      | queryRange b e => exact ha

end WeatherArchive

theorem timesOf_map_snd {l : WeatherArchive}
    (h : ∀ p ∈ l, p.2.time = some p.1) :
    timesOf (l.map Prod.snd) = l.map Prod.fst := by
  induction l with
  | nil => rfl
  | cons q rest ih =>
      rw [List.map_cons, timesOf, List.filterMap_cons,
        h q (List.mem_cons_self _ _), List.map_cons]
      exact congrArg (fun l => q.1 :: l)
        (ih (fun p hp => h p (List.mem_cons_of_mem _ hp)))

namespace WeatherArchive

theorem retrieveRange_eq_of_retrieve_some {a : WeatherArchive} {b e : Int}
    {r0 : WeatherData} (hbe : b ≤ e) (hr : a.retrieve b = some r0) :
    a.retrieveRange b e =
      (takeToKey e (a.dropWhile (fun p => p.1 < b))).map Prod.snd := by
  unfold retrieveRange
  rw [if_pos hbe, hr]

theorem retrieveRange_eq_nil_of_gt {a : WeatherArchive} {b e : Int}
    (h : ¬ b ≤ e) : a.retrieveRange b e = [] := by
  unfold retrieveRange
  rw [if_neg h]

theorem retrieveRange_eq_nil_of_none {a : WeatherArchive} {b e : Int}
    (hr : a.retrieve b = none) : a.retrieveRange b e = [] := by
  unfold retrieveRange
  by_cases hbe : b ≤ e
  · rw [if_pos hbe, hr]
  · rw [if_neg hbe]

end WeatherArchive

namespace ParseWeatherDriver

theorem accumulate_eq (f : WeatherData → Option ℚ) (l : List WeatherData)
    (c : Nat) (s : ℚ) :
    accumulate f l (c, s) =
      (c + (l.filterMap f).length, s + (l.filterMap f).sum) := by
  induction l generalizing c s with
  | nil => simp [accumulate]
  | cons r rest ih =>
      cases hf : f r with
      | some x =>
          simp only [accumulate, hf, List.filterMap_cons]
          rw [ih]
          refine Prod.ext ?_ ?_
          · simp only [List.length_cons]
            omega
          · simp only [List.sum_cons]
            ring
      | none =>
          simp only [accumulate, hf, List.filterMap_cons]
          exact ih c s

end ParseWeatherDriver

/-- **C1** (amended): for a well-formed archive, every record returned by
`retrieveRange(beginSec, endSec)` has a timestamp `t` with `beginSec ≤ t`,
with `t ≤ endSec` additionally guaranteed whenever a record is stored at
key `endSec`; and the returned sequence is in strictly ascending timestamp
order.  (The original claim's unconditional upper bound fails when
`endSec` is not a stored key: the loop's end iterator is then
`map.end()`, so all records from `beginSec` to the end of the archive are
returned, including keys beyond `endSec`.) -/
theorem retrieveRange_sound (a : WeatherArchive) (h : a.WF) (b e : Int) :
    (timesOf (a.retrieveRange b e)).Pairwise (· < ·) ∧
    (∀ r ∈ a.retrieveRange b e, ∃ t, r.time = some t ∧ b ≤ t ∧
      ((a.retrieve e).isSome = true → t ≤ e)) := by
  by_cases hbe : b ≤ e
  · cases hr : a.retrieve b with
    | none =>
        rw [WeatherArchive.retrieveRange_eq_nil_of_none hr]
        simp [timesOf]
    | some r0 =>
        rw [WeatherArchive.retrieveRange_eq_of_retrieve_some hbe hr]
        have htail_sub :
            List.Sublist (a.dropWhile (fun p => p.1 < b)) a :=
          List.dropWhile_sublist _
        have hT_sub_tail :
            List.Sublist
              (WeatherArchive.takeToKey e (a.dropWhile (fun p => p.1 < b)))
              (a.dropWhile (fun p => p.1 < b)) :=
          WeatherArchive.takeToKey_sublist e _
        have hT_sub := hT_sub_tail.trans htail_sub
        have hT_inv :
            ∀ p ∈ WeatherArchive.takeToKey e (a.dropWhile (fun p => p.1 < b)),
              p.2.time = some p.1 :=
          fun p hp => h.2 p (hT_sub.subset hp)
        constructor
        · rw [timesOf_map_snd hT_inv]
          exact List.pairwise_map.mpr (h.1.sublist hT_sub)
        · intro r hrmem
          rcases List.mem_map.mp hrmem with ⟨p, hpT, hpr⟩
          refine ⟨p.1, ?_, ?_, ?_⟩
          · rw [← hpr]
            exact hT_inv p hpT
          · exact WeatherArchive.mem_dropWhile_ge h.1 p (hT_sub_tail.subset hpT)
          · intro hsome
            have he : e ∈ a.keys := by
              by_contra hne
              rw [← WeatherArchive.retrieve_eq_none_iff] at hne
              rw [hne] at hsome
              simp at hsome
            rcases List.mem_map.mp he with ⟨q, hq, hqe⟩
            have hq_tail : q ∈ a.dropWhile (fun p => p.1 < b) :=
              WeatherArchive.mem_dropWhile_of_mem hq
                (by rw [hqe]; exact not_lt.mpr hbe)
            have he_tail :
                e ∈ WeatherArchive.keys (a.dropWhile (fun p => p.1 < b)) :=
              List.mem_map.mpr ⟨q, hq_tail, hqe⟩
            exact WeatherArchive.takeToKey_le (h.1.sublist htail_sub)
              he_tail p hpT
  · rw [WeatherArchive.retrieveRange_eq_nil_of_gt hbe]
    simp [timesOf]

/-- Witness for `retrieveRange_sound` at a concrete well-formed archive. -/
theorem retrieveRange_sound_witness :
    WeatherArchive.WF
      [(1, ⟨some 1, some 1, none, none, none⟩),
       (5, ⟨some 5, some 5, none, none, none⟩)] ∧
    ((timesOf (WeatherArchive.retrieveRange
        [(1, ⟨some 1, some 1, none, none, none⟩),
         (5, ⟨some 5, some 5, none, none, none⟩)] 1 3)).Pairwise (· < ·) ∧
      (∀ r ∈ WeatherArchive.retrieveRange
          [(1, ⟨some 1, some 1, none, none, none⟩),
           (5, ⟨some 5, some 5, none, none, none⟩)] 1 3,
        ∃ t, r.time = some t ∧ 1 ≤ t ∧
          ((WeatherArchive.retrieve
              [(1, ⟨some 1, some 1, none, none, none⟩),
               (5, ⟨some 5, some 5, none, none, none⟩)] 3).isSome = true →
            t ≤ 3))) :=
  ⟨by decide, retrieveRange_sound _ (by decide) 1 3⟩

/-- **C1** fails as stated: in the archive holding records at keys 1 and 5
(both reachable via `addData`), `retrieveRange 1 3` satisfies the claim's
hypotheses (`1 ≤ 3`, a record exists at key 1) yet returns the record with
timestamp 5, which lies outside `[1, 3]`. -/
theorem retrieveRange_interval_cex :
    ¬ (∀ r ∈ (WeatherArchive.addData
          (WeatherArchive.addData [] ⟨some 1, some 1, none, none, none⟩)
          ⟨some 5, some 5, none, none, none⟩).retrieveRange 1 3,
        ∀ t : Int, r.time = some t → 1 ≤ t ∧ t ≤ 3) :=
  fun hall =>
    absurd
      ((hall ⟨some 5, some 5, none, none, none⟩ (by decide) 5 rfl).2)
      (by decide)

/-- **C2**: for a well-formed archive, `retrieveRange(beginSec, endSec)`
is empty exactly when `beginSec > endSec` or no record is stored at key
`beginSec`; and when `beginSec ≤ endSec` and a record is stored at
`beginSec`, that record is the first element of the result. -/
theorem retrieveRange_empty_iff (a : WeatherArchive) (h : a.WF) (b e : Int) :
    (a.retrieveRange b e = [] ↔ e < b ∨ a.retrieve b = none) ∧
    (∀ r, b ≤ e → a.retrieve b = some r →
      (a.retrieveRange b e).head? = some r) := by
  have hhead : ∀ r, b ≤ e → a.retrieve b = some r →
      (a.retrieveRange b e).head? = some r := by
    intro r hbe hr
    rw [WeatherArchive.retrieveRange_eq_of_retrieve_some hbe hr]
    obtain ⟨tl, htl⟩ := WeatherArchive.dropWhile_eq_cons_of_retrieve h.1 hr
    rw [htl, WeatherArchive.takeToKey]
    simp
  refine ⟨⟨?_, ?_⟩, hhead⟩
  · intro hempty
    by_contra hcon
    push_neg at hcon
    obtain ⟨hbe, hsome⟩ := hcon
    rcases Option.ne_none_iff_exists'.mp hsome with ⟨r, hr⟩
    have := hhead r hbe hr
    rw [hempty] at this
    simp at this
  · intro hcase
    rcases hcase with h1 | h1
    · exact WeatherArchive.retrieveRange_eq_nil_of_gt (not_le.mpr h1)
    · exact WeatherArchive.retrieveRange_eq_nil_of_none h1

/-- Witness for `retrieveRange_empty_iff` at a concrete well-formed
archive with interior keys but no record at the range start. -/
theorem retrieveRange_empty_iff_witness :
    WeatherArchive.WF [(2, ⟨some 2, some 9, none, none, none⟩)] ∧
    ((WeatherArchive.retrieveRange
        [(2, ⟨some 2, some 9, none, none, none⟩)] 1 4 = [] ↔
      (4 : Int) < 1 ∨ WeatherArchive.retrieve
        [(2, ⟨some 2, some 9, none, none, none⟩)] 1 = none) ∧
    (∀ r : WeatherData, (1 : Int) ≤ 4 → WeatherArchive.retrieve
        [(2, ⟨some 2, some 9, none, none, none⟩)] 1 = some r →
      (WeatherArchive.retrieveRange
        [(2, ⟨some 2, some 9, none, none, none⟩)] 1 4).head? = some r)) :=
  ⟨by decide, retrieveRange_empty_iff _ (by decide) 1 4⟩

/-- **C5**: `calcVariableMean` returns the sum of the selected variable's
values over exactly those records of the `retrieveRange` result in which
the variable is present, divided by their count; records lacking the
variable do not influence the result, and the `NaN` outcome (modelled as
`none`) occurs exactly when that count is zero. -/
theorem calcVariableMean_spec (a : WeatherArchive)
    (v : ParseWeatherDriver.Variable) (b e : Int) :
    ParseWeatherDriver.calcVariableMean a v b e =
      (if ((a.retrieveRange b e).filterMap
            (ParseWeatherDriver.fieldOf v)).length = 0 then none
       else some
        (((a.retrieveRange b e).filterMap
            (ParseWeatherDriver.fieldOf v)).sum /
          (((a.retrieveRange b e).filterMap
            (ParseWeatherDriver.fieldOf v)).length : ℚ))) := by
  simp only [ParseWeatherDriver.calcVariableMean]
  rw [ParseWeatherDriver.accumulate_eq]
  by_cases hl : ((a.retrieveRange b e).filterMap
      (ParseWeatherDriver.fieldOf v)).length = 0
  · simp [hl]
  · simp [hl, Nat.pos_of_ne_zero hl]

/-- **C6**: inserting two records bearing the same timestamp `t` into a
well-formed archive leaves exactly one entry under key `t`, and
`retrieve t` returns the second record unchanged. -/
theorem addData_replace (a : WeatherArchive) (h : a.WF)
    (r1 r2 : WeatherData) (t : Int) (h1 : r1.time = some t)
    (h2 : r2.time = some t) :
    ((a.addData r1).addData r2).retrieve t = some r2 ∧
    (WeatherArchive.keys ((a.addData r1).addData r2)).count t = 1 := by
  have heq : (a.addData r1).addData r2 =
      WeatherArchive.insertKey t r2 (WeatherArchive.insertKey t r1 a) := by
    simp only [WeatherArchive.addData, h1, h2]
  rw [heq]
  constructor
  · exact WeatherArchive.retrieve_insertKey_self t r2 _
  · have hpair :
        (WeatherArchive.insertKey t r2
          (WeatherArchive.insertKey t r1 a)).Pairwise
            (fun p q => p.1 < q.1) :=
      WeatherArchive.insertKey_pairwise
        (WeatherArchive.insertKey_pairwise h.1)
    have hnodup :
        (WeatherArchive.keys (WeatherArchive.insertKey t r2
          (WeatherArchive.insertKey t r1 a))).Nodup :=
      (List.pairwise_map.mpr hpair).imp ne_of_lt
    have hmem : t ∈ WeatherArchive.keys (WeatherArchive.insertKey t r2
        (WeatherArchive.insertKey t r1 a)) := by
      by_contra hnot
      rw [← WeatherArchive.retrieve_eq_none_iff] at hnot
      have hsome := WeatherArchive.retrieve_insertKey_self t r2
        (WeatherArchive.insertKey t r1 a)
      rw [hnot] at hsome
      exact Option.noConfusion hsome
    exact List.count_eq_one_of_mem hnodup hmem

/-- Witness for `addData_replace`: two records with timestamp 3 inserted
into the empty archive. -/
theorem addData_replace_witness :
    (WeatherArchive.WF [] ∧
      (⟨some 3, some 1, none, none, none⟩ : WeatherData).time = some 3 ∧
      (⟨some 3, some 2, none, none, none⟩ : WeatherData).time = some 3) ∧
    ((WeatherArchive.addData
        (WeatherArchive.addData [] ⟨some 3, some 1, none, none, none⟩)
        ⟨some 3, some 2, none, none, none⟩).retrieve 3 =
      some ⟨some 3, some 2, none, none, none⟩ ∧
    (WeatherArchive.keys (WeatherArchive.addData
        (WeatherArchive.addData [] ⟨some 3, some 1, none, none, none⟩)
        ⟨some 3, some 2, none, none, none⟩)).count 3 = 1) :=
  ⟨⟨by decide, rfl, rfl⟩, addData_replace [] (by decide) _ _ 3 rfl rfl⟩

/-- **C7**: `addData` of a record whose timestamp is absent leaves the
archive unchanged: the store is equal to what it was, every `retrieve`
answers as before, and the size is unchanged. -/
theorem addData_no_timestamp (a : WeatherArchive) (r : WeatherData)
    (h : r.time = none) :
    a.addData r = a ∧ (∀ t, (a.addData r).retrieve t = a.retrieve t) ∧
    (a.addData r).length = a.length := by
  have heq : a.addData r = a := by
    simp only [WeatherArchive.addData, h]
  exact ⟨heq, fun t => by rw [heq], by rw [heq]⟩

/-- Witness for `addData_no_timestamp`: a timestamp-less record dropped
by a one-entry archive. -/
theorem addData_no_timestamp_witness :
    (⟨none, some 1, none, none, none⟩ : WeatherData).time = none ∧
    WeatherArchive.addData [(2, ⟨some 2, none, none, none, none⟩)]
        ⟨none, some 1, none, none, none⟩
      = [(2, ⟨some 2, none, none, none, none⟩)] :=
  ⟨rfl, (addData_no_timestamp _ _ rfl).1⟩

/-- **C9**: after any sequence of `addData`, `retrieve` and
`retrieveRange` operations starting from the empty archive, every key of
the backing map equals the `timestamp` field of the record stored under
it, and consequently every record returned by `retrieve t` has timestamp
`t`. -/
theorem archive_key_invariant (ops : List ArchiveOp) :
    (∀ p ∈ runOps ops, p.2.time = some p.1) ∧
    (∀ t r, (runOps ops).retrieve t = some r → r.time = some t) := by
  have h := WeatherArchive.runOps_WF ops
  exact ⟨h.2, fun t r hr =>
    h.2 (t, r) (WeatherArchive.retrieve_eq_some_mem hr)⟩

/-- Witness for `archive_key_invariant`: a concrete operation sequence
whose final lookup hits a record stamped with the key. -/
theorem archive_key_invariant_witness :
    (runOps [ArchiveOp.add ⟨some 4, some 9, none, none, none⟩,
        ArchiveOp.query 4, ArchiveOp.queryRange 4 9]).retrieve 4 =
      some ⟨some 4, some 9, none, none, none⟩ ∧
    (⟨some 4, some 9, none, none, none⟩ : WeatherData).time = some 4 :=
  ⟨by decide,
    (archive_key_invariant [ArchiveOp.add ⟨some 4, some 9, none, none, none⟩,
        ArchiveOp.query 4, ArchiveOp.queryRange 4 9]).2 4
      ⟨some 4, some 9, none, none, none⟩ (by decide)⟩

/-- **C8** fails as stated: `"2021-02-30"` denotes an invalid calendar
date of the accepted `yyyy-mm-dd` shape, yet `dateToUnix` returns a
present value — the regex admits day 30 in February, and the date
library's day-field-linear conversion silently lands on 2021-03-02. -/
theorem dateToUnix_invalid_date_present :
    jsonparse.dateToUnix "2021-02-30" =
      some (86400 * jsonparse.toDays 2021 3 2) ∧
    jsonparse.dateToUnix "2021-03-02" =
      some (86400 * jsonparse.toDays 2021 3 2) ∧
    (jsonparse.dateToUnix "2021-02-30").isSome = true := by
  refine ⟨?_, ?_, ?_⟩ <;> decide

/-- **C10**: the conversion searches for the date pattern anywhere in the
input: `"x2016-03-03y"` is not exactly of the `yyyy-mm-dd` shape, yet it
converts to the epoch timestamp of the embedded date `2016-03-03`. -/
theorem dateToUnix_embedded_match :
    jsonparse.dateToUnix "x2016-03-03y" =
      some (86400 * jsonparse.toDays 2016 3 3) ∧
    jsonparse.dateToUnix "2016-03-03" =
      some (86400 * jsonparse.toDays 2016 3 3) ∧
    "x2016-03-03y" ≠ "2016-03-03" := by
  refine ⟨?_, ?_, ?_⟩ <;> decide

/-- **C3** fails as stated: with the single record stored on calendar day
2019-03-01 and the one-day query range 2016-02-29 (a valid leap day) over
candidate year 2019, `sampleHistoricalData` returns that record's
measurements re-stamped to 2016-02-29 — but the source record's calendar
day is 03-01, not the requested month/day 02-29: the unchecked
`year/month/day` synthesis for the non-leap candidate year overflows
2019-02-29 to 2019-03-01. -/
theorem sampleHistorical_cross_day_source :
    ParseWeatherDriver.sampleHistoricalData
        (WeatherArchive.addData []
          ⟨some (86400 * jsonparse.toDays 2019 3 1), none, some 3, none, none⟩)
        (fun _ => [2019])
        (jsonparse.toDays 2016 2 29) (jsonparse.toDays 2016 2 29)
      = [⟨some (86400 * jsonparse.toDays 2016 2 29), none, some 3, none, none⟩] ∧
    WeatherArchive.addData []
        ⟨some (86400 * jsonparse.toDays 2019 3 1), none, some 3, none, none⟩
      = [(86400 * jsonparse.toDays 2019 3 1,
          ⟨some (86400 * jsonparse.toDays 2019 3 1), none, some 3, none, none⟩)] ∧
    jsonparse.fromDays (jsonparse.toDays 2016 2 29) = (2016, 2, 29) ∧
    jsonparse.fromDays (jsonparse.toDays 2019 3 1) = (2019, 3, 1) := by
  refine ⟨?_, ?_, ?_, ?_⟩ <;> decide

/-- **C4** fails as stated: for day 2020-02-29 and candidate year 2021
(first in the shuffled order, a permutation of the candidate years 2020
and 2021), the synthesized date 2021-02-29 is invalid, yet the candidate
is not skipped: the lookup timestamp equals that of 2021-03-01, the
record stored there is found, and it is returned for the day — the
candidate contributes data drawn from another calendar day of that
year. -/
theorem sampleHistorical_invalid_candidate_hits :
    ParseWeatherDriver.sampleHistoricalData
        (WeatherArchive.addData []
          ⟨some (86400 * jsonparse.toDays 2021 3 1), some 7, none, none, none⟩)
        (fun _ => [2021, 2020])
        (jsonparse.toDays 2020 2 29) (jsonparse.toDays 2020 2 29)
      = [⟨some (86400 * jsonparse.toDays 2020 2 29), some 7, none, none, none⟩] ∧
    jsonparse.toDays 2021 2 29 = jsonparse.toDays 2021 3 1 ∧
    WeatherArchive.retrieve
        (WeatherArchive.addData []
          ⟨some (86400 * jsonparse.toDays 2021 3 1), some 7, none, none, none⟩)
        (86400 * jsonparse.toDays 2021 2 29)
      = some ⟨some (86400 * jsonparse.toDays 2021 3 1), some 7, none, none, none⟩ ∧
    ([2021, 2020] : List Int).Perm
      (ParseWeatherDriver.sampleYears 2020 2021) := by
  refine ⟨?_, ?_, ?_, ?_⟩ <;> decide
